import Mathlib

/-!
Shallow embedding of the sensor-core subsystem of RIOT-rs:
the ring-buffer index primitive (`src/lib/rbi/src/lib.rs`) and the
sensor state/signaling layer (`src/riot-rs-sensors/src/sensor.rs`).

Machine integers (`u8`) are embedded as `Nat` with explicit `% 256`
wrapping where the source wraps; fallible operations return `Option` /
`Except`; stateful methods take and return the record that embeds the
Rust struct.
-/

set_option maxRecDepth 8000

namespace Rbi

/-- Embeds Rust `u8::is_power_of_two`: true iff exactly one bit is set
(`0` is not a power of two). -/
def isPow2 (v : Nat) : Bool := v != 0 && (v &&& (v - 1)) == 0

/-- Fuel-based helper for `u8::next_power_of_two`: smallest power of two
`≥ v` (with `v ≤ 1` giving `1`). Structural recursion on the fuel so that
the kernel can evaluate it; fuel `8` is enough for all 8-bit inputs. -/
def np2Aux : Nat → Nat → Nat
  | 0, _ => 1
  | fuel + 1, v => if v ≤ 1 then 1 else 2 * np2Aux fuel ((v + 1) / 2)

/-- Embeds Rust `u8::next_power_of_two` on the inputs the source feeds it
(at most `128`, so fuel `8` always suffices). -/
def next_power_of_two (v : Nat) : Nat := np2Aux 8 v

/-- Embeds `next_smaller_power_of_two` from `src/lib/rbi/src/lib.rs`:
`if val.is_power_of_two() { val } else { ((val >> 1) + 1).next_power_of_two() }`. -/
def next_smaller_power_of_two (val : Nat) : Nat :=
  if isPow2 val then val else next_power_of_two (val / 2 + 1)

/-- Embeds the Rust struct `RingBufferIndex { reads: u8, writes: u8, mask: u8 }`.
The `u8` fields are `Nat`s kept below `256` by every operation. -/
structure RingBufferIndex where
  reads : Nat
  writes : Nat
  mask : Nat
deriving DecidableEq, Repr

/-- Wrapping 8-bit subtraction `a.wrapping_sub(b)` (also the semantics of
`a - b` on `u8` with overflow checks off, as in the release builds this
`no_std` crate targets). -/
def w8sub (a b : Nat) : Nat := (a + (256 - b % 256)) % 256

/-- Wrapping 8-bit increment `a.wrapping_add(1)`. -/
def w8inc (a : Nat) : Nat := (a + 1) % 256

/-- Embeds `RingBufferIndex::new(size)`: zero counters and
`mask = next_smaller_power_of_two(size) - 1`. -/
def RingBufferIndex.new (size : Nat) : RingBufferIndex :=
  { reads := 0, writes := 0, mask := next_smaller_power_of_two size - 1 }

/-- Embeds `available()`: `self.writes - self.reads` on `u8`, which wraps
modulo `256` (see `w8sub`). -/
def RingBufferIndex.available (s : RingBufferIndex) : Nat := w8sub s.writes s.reads

/-- Embeds `is_empty()`: `self.writes.wrapping_sub(self.reads) == 0`. -/
def RingBufferIndex.is_empty (s : RingBufferIndex) : Bool :=
  w8sub s.writes s.reads == 0

/-- Embeds `is_full()`: `(self.mask == 0) || (self.available() > self.mask)`. -/
def RingBufferIndex.is_full (s : RingBufferIndex) : Bool :=
  s.mask == 0 || decide (s.mask < s.available)

/-- Embeds `get()`: if not empty, return `reads & mask` and advance `reads`
(wrapping); else `None`. Returns the yielded index and the updated struct. -/
def RingBufferIndex.get (s : RingBufferIndex) : Option Nat × RingBufferIndex :=
  if !s.is_empty then
    (some (s.reads &&& s.mask), { s with reads := w8inc s.reads })
  else
    (none, s)

/-- Embeds `peek()`: the index `get()` would return, without advancing. -/
def RingBufferIndex.peek (s : RingBufferIndex) : Option Nat :=
  if !s.is_empty then some (s.reads &&& s.mask) else none

/-- Embeds `put()`: if not full, return `writes & mask` and advance `writes`
(wrapping); else `None`. Returns the yielded index and the updated struct. -/
def RingBufferIndex.put (s : RingBufferIndex) : Option Nat × RingBufferIndex :=
  if !s.is_full then
    (some (s.writes &&& s.mask), { s with writes := w8inc s.writes })
  else
    (none, s)

/-- Embeds `capacity()`: `mask + 1` if `mask > 0` else `0`. -/
def RingBufferIndex.capacity (s : RingBufferIndex) : Nat :=
  if s.mask > 0 then s.mask + 1 else 0

/-- Spec-side definition, following the spec's words for comparison with the
code: "the largest power of two ≤ `size`" (with `0` when none exists, i.e.
for `size = 0`). Fuel-based so the kernel can evaluate it; fuel `8` covers
all 8-bit inputs. -/
def fp2Aux : Nat → Nat → Nat
  | 0, _ => 0
  | fuel + 1, v => if v = 0 then 0 else if v = 1 then 1 else 2 * fp2Aux fuel (v / 2)

/-- Spec-side definition: largest power of two `≤ n` (and `0` for `n = 0`),
used to compare `capacity()` against the spec's description. -/
def largestPow2LE (n : Nat) : Nat := fp2Aux 8 n

/-- A `put`/`get` call in a call sequence on a `RingBufferIndex`. -/
inductive RBOp where
  | put : RBOp
  | get : RBOp
deriving DecidableEq, Repr

/-- Applies one call, keeping only the updated struct. -/
def applyOp (s : RingBufferIndex) : RBOp → RingBufferIndex
  | RBOp.put => s.put.2
  | RBOp.get => s.get.2

/-- Runs a finite sequence of `put`/`get` calls. -/
def runOps (s : RingBufferIndex) (ops : List RBOp) : RingBufferIndex :=
  ops.foldl applyOp s

/-- Runs a sequence of calls while counting the successful (`Some`-returning)
`put`s and `get`s. -/
def stepC : RingBufferIndex × Nat × Nat → RBOp → RingBufferIndex × Nat × Nat
  | (s, p, g), RBOp.put => (s.put.2, p + (if s.put.1.isSome then 1 else 0), g)
  | (s, p, g), RBOp.get => (s.get.2, p, g + (if s.get.1.isSome then 1 else 0))

/-- Folds `stepC` over a call sequence. -/
def runC (x : RingBufferIndex × Nat × Nat) (ops : List RBOp) : RingBufferIndex × Nat × Nat :=
  ops.foldl stepC x

/-- Representation invariant of the embedded struct: `u8` fields are below
`256`, the mask of any constructible index is at most `127`, and the fill
level never exceeds the capacity. -/
def Inv (s : RingBufferIndex) : Prop :=
  s.reads < 256 ∧ s.writes < 256 ∧ s.mask ≤ 127 ∧ s.available ≤ s.capacity

theorem w8sub_lt (a b : Nat) : w8sub a b < 256 := by
  simp only [w8sub]
  omega

theorem w8sub_self (a : Nat) : w8sub a a = 0 := by
  simp only [w8sub]
  omega

theorem is_empty_iff (s : RingBufferIndex) : s.is_empty = true ↔ s.available = 0 := by
  simp [RingBufferIndex.is_empty, RingBufferIndex.available]

theorem is_full_iff (s : RingBufferIndex) :
    s.is_full = true ↔ (s.mask = 0 ∨ s.mask < s.available) := by
  simp [RingBufferIndex.is_full]

theorem put_spec (s : RingBufferIndex) (h : s.is_full = false) :
    s.put = (some (s.writes &&& s.mask), { s with writes := w8inc s.writes }) := by
  simp [RingBufferIndex.put, h]

theorem put_full (s : RingBufferIndex) (h : s.is_full = true) : s.put = (none, s) := by
  simp [RingBufferIndex.put, h]

theorem get_spec (s : RingBufferIndex) (h : s.is_empty = false) :
    s.get = (some (s.reads &&& s.mask), { s with reads := w8inc s.reads }) := by
  simp [RingBufferIndex.get, h]

theorem get_empty (s : RingBufferIndex) (h : s.is_empty = true) : s.get = (none, s) := by
  simp [RingBufferIndex.get, h]

theorem available_after_put (s : RingBufferIndex) (h : s.available ≤ 254) :
    ({ s with writes := w8inc s.writes } : RingBufferIndex).available = s.available + 1 := by
  simp only [RingBufferIndex.available, w8sub, w8inc] at *
  omega

theorem available_after_get (s : RingBufferIndex) (h : s.available ≠ 0) :
    ({ s with reads := w8inc s.reads } : RingBufferIndex).available = s.available - 1 := by
  simp only [RingBufferIndex.available, w8sub, w8inc] at *
  omega

theorem inv_applyOp (s : RingBufferIndex) (h : Inv s) (op : RBOp) : Inv (applyOp s op) := by
  obtain ⟨hr, hw, hm, ha⟩ := h
  cases op with
  | put =>
    by_cases hf : s.is_full = true
    · simpa [applyOp, put_full s hf] using ⟨hr, hw, hm, ha⟩
    · rw [Bool.not_eq_true] at hf
      have hnf := (not_iff_not.mpr (is_full_iff s)).mp (by simp [hf])
      push_neg at hnf
      obtain ⟨hm0, hle⟩ := hnf
      have hcap : s.capacity = s.mask + 1 := by
        simp [RingBufferIndex.capacity, Nat.pos_of_ne_zero hm0]
      refine ⟨?_, ?_, ?_, ?_⟩ <;>
        simp only [applyOp, put_spec s hf]
      · exact hr
      · simp only [w8inc]; omega
      · exact hm
      · rw [available_after_put s (by omega)]
        simp only [RingBufferIndex.capacity] at *
        omega
  | get =>
    by_cases he : s.is_empty = true
    · simpa [applyOp, get_empty s he] using ⟨hr, hw, hm, ha⟩
    · rw [Bool.not_eq_true] at he
      have hne : s.available ≠ 0 := by
        intro h0
        rw [← is_empty_iff s] at h0
        simp [he] at h0
      refine ⟨?_, ?_, ?_, ?_⟩ <;>
        simp only [applyOp, get_spec s he]
      · simp only [w8inc]; omega
      · exact hw
      · exact hm
      · rw [available_after_get s hne]
        simp only [RingBufferIndex.capacity] at *
        omega

theorem inv_runOps (s : RingBufferIndex) (h : Inv s) (ops : List RBOp) :
    Inv (runOps s ops) := by
  induction ops generalizing s with
  | nil => exact h
  | cons op ops ih => exact ih (applyOp s op) (inv_applyOp s h op)

theorem inv_new (size : Fin 256) : Inv (RingBufferIndex.new size.val) := by
  revert size
  simp only [Inv]
  decide

/-- C1 counterexample: the claim "capacity() equals the largest power of two
≤ size" fails at `size = 1`: the largest power of two ≤ 1 is 1, but
`RingBufferIndex::new(1)` has `mask = 0` and hence `capacity() = 0`. -/
theorem claim_C1_cex :
    (RingBufferIndex.new 1).capacity = 0 ∧ largestPow2LE 1 = 1 ∧
      (RingBufferIndex.new 1).capacity ≠ largestPow2LE 1 := by
  decide

/-- C1 (amended): for every `u8` input `size`, `RingBufferIndex::new(size)`
gives `capacity() = 0` when `size ≤ 1`, and `capacity()` equal to the largest
power of two ≤ `size` when `2 ≤ size ≤ 255`. -/
theorem claim_C1 (size : Fin 256) :
    (RingBufferIndex.new size.val).capacity =
      if size.val ≤ 1 then 0 else largestPow2LE size.val := by
  revert size
  decide

/-- C4: for every `u8` size and every finite sequence of `put`/`get` calls on
`RingBufferIndex::new(size)`, in the reached state `available()` never exceeds
`capacity()`, `is_empty()` holds iff `available() == 0`, and `is_full()` holds
iff `mask == 0` or `available() > mask`. -/
theorem claim_C4 (size : Fin 256) (ops : List RBOp) :
    (runOps (RingBufferIndex.new size.val) ops).available ≤
        (runOps (RingBufferIndex.new size.val) ops).capacity ∧
      ((runOps (RingBufferIndex.new size.val) ops).is_empty = true ↔
        (runOps (RingBufferIndex.new size.val) ops).available = 0) ∧
      ((runOps (RingBufferIndex.new size.val) ops).is_full = true ↔
        ((runOps (RingBufferIndex.new size.val) ops).mask = 0 ∨
          (runOps (RingBufferIndex.new size.val) ops).mask <
            (runOps (RingBufferIndex.new size.val) ops).available)) :=
  ⟨(inv_runOps _ (inv_new size) ops).2.2.2,
   is_empty_iff _, is_full_iff _⟩

/-- C5: starting from `RingBufferIndex::new(0)`, every state reachable by
`put`/`get` calls is the initial state itself, and there `is_full()` and
`is_empty()` both hold while `put()` and `get()` both return `None`. -/
theorem claim_C5 (ops : List RBOp) :
    runOps (RingBufferIndex.new 0) ops = RingBufferIndex.new 0 ∧
      (runOps (RingBufferIndex.new 0) ops).is_full = true ∧
      (runOps (RingBufferIndex.new 0) ops).is_empty = true ∧
      (runOps (RingBufferIndex.new 0) ops).put.1 = none ∧
      (runOps (RingBufferIndex.new 0) ops).get.1 = none := by
  have hfix : ∀ op : RBOp, applyOp (RingBufferIndex.new 0) op = RingBufferIndex.new 0 := by
    intro op
    cases op <;> decide
  have hrun : runOps (RingBufferIndex.new 0) ops = RingBufferIndex.new 0 := by
    induction ops with
    | nil => rfl
    | cons op ops ih =>
      show runOps (applyOp (RingBufferIndex.new 0) op) ops = RingBufferIndex.new 0
      rw [hfix op]
      exact ih
  refine ⟨hrun, ?_, ?_, ?_, ?_⟩ <;> rw [hrun] <;> decide

/-- Invariant for the counting run: the struct invariant holds, successful
`get`s never outnumber successful `put`s, and the fill level equals their
difference. -/
def InvC (x : RingBufferIndex × Nat × Nat) : Prop :=
  Inv x.1 ∧ x.2.2 ≤ x.2.1 ∧ x.1.available = x.2.1 - x.2.2

theorem invC_stepC (x : RingBufferIndex × Nat × Nat) (h : InvC x) (op : RBOp) :
    InvC (stepC x op) := by
  obtain ⟨s, p, g⟩ := x
  obtain ⟨hi, hgp, hav⟩ := h
  dsimp only at hi hgp hav
  have hs1 : (stepC (s, p, g) op).1 = applyOp s op := by cases op <;> rfl
  have hinv : Inv (stepC (s, p, g) op).1 := by
    rw [hs1]
    exact inv_applyOp s hi op
  cases op with
  | put =>
    by_cases hf : s.is_full = true
    · have hstep : stepC (s, p, g) RBOp.put = (s, p, g) := by
        simp [stepC, put_full s hf]
      rw [hstep]
      exact ⟨hi, hgp, hav⟩
    · rw [Bool.not_eq_true] at hf
      have hnf := (not_iff_not.mpr (is_full_iff s)).mp (by simp [hf])
      push_neg at hnf
      obtain ⟨hm0, hle⟩ := hnf
      have h127 := hi.2.2.1
      have hb : s.available ≤ 254 := by omega
      have hstep : stepC (s, p, g) RBOp.put = ({ s with writes := w8inc s.writes }, p + 1, g) := by
        simp [stepC, put_spec s hf]
      have h1 : Inv ({ s with writes := w8inc s.writes } : RingBufferIndex) := by
        have hx := hinv
        rw [hstep] at hx
        exact hx
      rw [hstep]
      refine ⟨h1, ?_, ?_⟩ <;> dsimp only
      · omega
      · rw [available_after_put s hb]
        omega
  | get =>
    by_cases he : s.is_empty = true
    · have hstep : stepC (s, p, g) RBOp.get = (s, p, g) := by
        simp [stepC, get_empty s he]
      rw [hstep]
      exact ⟨hi, hgp, hav⟩
    · rw [Bool.not_eq_true] at he
      have hne : s.available ≠ 0 := by
        intro h0
        rw [← is_empty_iff s] at h0
        simp [he] at h0
      have hstep : stepC (s, p, g) RBOp.get = ({ s with reads := w8inc s.reads }, p, g + 1) := by
        simp [stepC, get_spec s he]
      have h1 : Inv ({ s with reads := w8inc s.reads } : RingBufferIndex) := by
        have hx := hinv
        rw [hstep] at hx
        exact hx
      rw [hstep]
      have hgtz : g < p := by omega
      refine ⟨h1, ?_, ?_⟩ <;> dsimp only
      · omega
      · rw [available_after_get s hne]
        omega

theorem invC_runC (x : RingBufferIndex × Nat × Nat) (h : InvC x) (ops : List RBOp) :
    InvC (runC x ops) := by
  induction ops generalizing x with
  | nil => exact h
  | cons op ops ih => exact ih (stepC x op) (invC_stepC x h op)

theorem available_new (size : Nat) : (RingBufferIndex.new size).available = 0 := by
  simp [RingBufferIndex.available, RingBufferIndex.new, w8sub]

/-- C7: `available()` computes the 8-bit wrapping subtraction of the `writes`
and `reads` counters, and in every state reachable from `new(size)` it is
below `256` and equals the number of successful `put`s minus the number of
successful `get`s (which never exceeds it), counter wraparound included. -/
theorem claim_C7 (size : Fin 256) (ops : List RBOp) :
    (runC (RingBufferIndex.new size.val, 0, 0) ops).1.available =
        w8sub (runC (RingBufferIndex.new size.val, 0, 0) ops).1.writes
          (runC (RingBufferIndex.new size.val, 0, 0) ops).1.reads ∧
      (runC (RingBufferIndex.new size.val, 0, 0) ops).2.2 ≤
        (runC (RingBufferIndex.new size.val, 0, 0) ops).2.1 ∧
      (runC (RingBufferIndex.new size.val, 0, 0) ops).1.available =
        (runC (RingBufferIndex.new size.val, 0, 0) ops).2.1 -
          (runC (RingBufferIndex.new size.val, 0, 0) ops).2.2 ∧
      (runC (RingBufferIndex.new size.val, 0, 0) ops).1.available < 256 := by
  have h0 : InvC (RingBufferIndex.new size.val, 0, 0) :=
    ⟨inv_new size, Nat.le_refl 0, available_new size.val⟩
  have h := invC_runC _ h0 ops
  exact ⟨rfl, h.2.1, h.2.2, w8sub_lt _ _⟩

/-- C10: in any state, whenever `put()`, `get()`, or `peek()` returns
`Some(i)`, the index `i` is at most `mask`, hence a valid slot of a backing
array of `capacity()` elements. -/
theorem claim_C10 (s : RingBufferIndex) :
    (∀ i, s.put.1 = some i → i ≤ s.mask) ∧
      (∀ i, s.get.1 = some i → i ≤ s.mask) ∧
      (∀ i, s.peek = some i → i ≤ s.mask) := by
  refine ⟨?_, ?_, ?_⟩ <;> intro i hi
  · by_cases hf : s.is_full = true
    · rw [put_full s hf] at hi
      simp at hi
    · rw [Bool.not_eq_true] at hf
      rw [put_spec s hf] at hi
      have : s.writes &&& s.mask = i := by simpa using hi
      exact this ▸ Nat.and_le_right
  · by_cases he : s.is_empty = true
    · rw [get_empty s he] at hi
      simp at hi
    · rw [Bool.not_eq_true] at he
      rw [get_spec s he] at hi
      have : s.reads &&& s.mask = i := by simpa using hi
      exact this ▸ Nat.and_le_right
  · by_cases he : s.is_empty = true
    · simp [RingBufferIndex.peek, he] at hi
    · rw [Bool.not_eq_true] at he
      simp [RingBufferIndex.peek, he] at hi
      exact hi ▸ Nat.and_le_right

/-- C10 witness: on `new(4)` the first `put()` yields index `0`, which is at
most the mask. -/
theorem claim_C10_witness :
    (RingBufferIndex.new 4).put.1 = some 0 ∧ (0 : Nat) ≤ (RingBufferIndex.new 4).mask :=
  ⟨by decide, (claim_C10 (RingBufferIndex.new 4)).1 0 (by decide)⟩

/-- One strictly alternating cycle: a `put()` immediately followed by a
`get()`; returns both yielded indices and the final struct. -/
def altStep (s : RingBufferIndex) : (Option Nat × Option Nat) × RingBufferIndex :=
  ((s.put.1, s.put.2.get.1), s.put.2.get.2)

/-- The struct after `j` alternating put/get cycles. -/
def altIter (s : RingBufferIndex) : Nat → RingBufferIndex
  | 0 => s
  | j + 1 => (altStep (altIter s j)).2

theorem altStep_diag (a m : Nat) (ha : a < 256) (hm : 0 < m) :
    altStep ⟨a, a, m⟩ =
      ((some (a &&& m), some (a &&& m)), ⟨(a + 1) % 256, (a + 1) % 256, m⟩) := by
  have hf : (⟨a, a, m⟩ : RingBufferIndex).is_full = false := by
    simp [RingBufferIndex.is_full, RingBufferIndex.available, w8sub_self,
      Nat.pos_iff_ne_zero.mp hm]
  have hput := put_spec ⟨a, a, m⟩ hf
  have h1 : w8sub (w8inc a) a = 1 := by
    simp only [w8sub, w8inc]
    omega
  have he1 : ({ reads := a, writes := w8inc a, mask := m } : RingBufferIndex).is_empty = false := by
    simp [RingBufferIndex.is_empty, h1]
  have hget := get_spec _ he1
  simp only [w8inc] at hput hget
  simp [altStep, hput, hget]

theorem altIter_diag (m : Nat) (hm : 0 < m) (j : Nat) :
    altIter ⟨0, 0, m⟩ j = ⟨j % 256, j % 256, m⟩ := by
  induction j with
  | zero => rfl
  | succ j ih =>
    show (altStep (altIter ⟨0, 0, m⟩ j)).2 = _
    rw [ih, altStep_diag (j % 256) m (Nat.mod_lt _ (by norm_num)) hm]
    have hmod : (j % 256 + 1) % 256 = (j + 1) % 256 := by omega
    rw [hmod]

/-- C6: on any `u8`-valid state that is empty but not full, `put()` followed
immediately by `get()` yields the same index from both calls; and starting
from `new(size)` with capacity `c ≥ 1`, the `j`-th strictly alternating
put/get cycle yields index `j mod c` from both calls, for every `j` —
so every block of `c` cycles repeats the sequence `0, …, c−1`, across 8-bit
counter wraparound. -/
theorem claim_C6 :
    (∀ s : RingBufferIndex, s.reads < 256 → s.writes < 256 →
        s.is_empty = true → s.is_full = false →
        ∃ i, s.put.1 = some i ∧ s.put.2.get.1 = some i) ∧
      (∀ size : Fin 256, 1 ≤ (RingBufferIndex.new size.val).capacity →
        ∀ j : Nat,
          (altStep (altIter (RingBufferIndex.new size.val) j)).1 =
            (some (j % (RingBufferIndex.new size.val).capacity),
             some (j % (RingBufferIndex.new size.val).capacity))) := by
  constructor
  · intro s hr hw he hf
    have heq : s.writes = s.reads := by
      have h0 := (is_empty_iff s).mp he
      simp only [RingBufferIndex.available, w8sub] at h0
      omega
    have h1 : w8sub (w8inc s.writes) s.reads = 1 := by
      simp only [w8sub, w8inc]
      omega
    have he2 : ({ s with writes := w8inc s.writes } : RingBufferIndex).is_empty = false := by
      simp [RingBufferIndex.is_empty, h1]
    refine ⟨s.writes &&& s.mask, ?_, ?_⟩
    · rw [put_spec s hf]
    · rw [put_spec s hf]
      show ({ s with writes := w8inc s.writes } : RingBufferIndex).get.1 = _
      rw [get_spec _ he2]
      simp [heq]
  · intro size hcap j
    have hm0 : 0 < (RingBufferIndex.new size.val).mask := by
      by_contra h0
      push_neg at h0
      have hz : (RingBufferIndex.new size.val).mask = 0 := Nat.le_zero.mp h0
      simp [RingBufferIndex.capacity, hz] at hcap
    have hcapeq : (RingBufferIndex.new size.val).capacity =
        (RingBufferIndex.new size.val).mask + 1 := by
      simp [RingBufferIndex.capacity, hm0]
    have hpow : ∃ t : Fin 8, next_smaller_power_of_two size.val = 2 ^ t.val := by
      revert size
      decide
    obtain ⟨t, ht⟩ := hpow
    have hmask : (RingBufferIndex.new size.val).mask = 2 ^ t.val - 1 := by
      simp only [RingBufferIndex.new]
      rw [ht]
    have hnew : RingBufferIndex.new size.val =
        ⟨0, 0, (RingBufferIndex.new size.val).mask⟩ := rfl
    have hdvd : 2 ^ t.val ∣ 256 := by
      have h8 : (256 : Nat) = 2 ^ 8 := by norm_num
      rw [h8]
      exact pow_dvd_pow 2 (Nat.le_of_lt_succ (Nat.lt_succ_of_lt t.isLt))
    have hidx : (j % 256) &&& (RingBufferIndex.new size.val).mask =
        j % (RingBufferIndex.new size.val).capacity := by
      rw [hcapeq, hmask, Nat.and_pow_two_sub_one_eq_mod,
        Nat.sub_add_cancel (Nat.one_le_two_pow)]
      exact Nat.mod_mod_of_dvd j hdvd
    have hLHS : (altStep (altIter (RingBufferIndex.new size.val) j)).1 =
        (some ((j % 256) &&& (RingBufferIndex.new size.val).mask),
         some ((j % 256) &&& (RingBufferIndex.new size.val).mask)) := by
      conv_lhs => rw [hnew]
      rw [altIter_diag _ hm0 j,
        altStep_diag (j % 256) _ (Nat.mod_lt _ (by norm_num)) hm0]
    rw [hLHS, hidx]

/-- C6 witness: on `new(4)` (capacity 4) the first cycle yields matching
indices, and the 10th alternating cycle (j = 9) yields index `9 mod 4 = 1`
from both the `put` and the `get`. -/
theorem claim_C6_witness :
    (∃ i, (RingBufferIndex.new 4).put.1 = some i ∧
        (RingBufferIndex.new 4).put.2.get.1 = some i) ∧
      (altStep (altIter (RingBufferIndex.new 4) 9)).1 = (some 1, some 1) := by
  constructor
  · exact claim_C6.1 (RingBufferIndex.new 4) (by decide) (by decide) (by decide) (by decide)
  · exact (claim_C6.2 4 (by decide) 9).trans (by decide)

end Rbi

namespace Sensors

/-- Embeds the Rust enum `Mode` from `src/riot-rs-sensors/src/sensor.rs`. -/
inductive Mode where
  | Disabled : Mode
  | Enabled : Mode
  | Sleeping : Mode
deriving DecidableEq, Repr

/-- Embeds the Rust enum `State` (`repr(u8)`, discriminants 0..3). -/
inductive State where
  | Uninitialized : State
  | Disabled : State
  | Enabled : State
  | Sleeping : State
deriving DecidableEq, Repr

/-- The `repr(u8)` discriminant of a `State` (Rust `state as u8`). -/
def State.toU8 : State → Nat
  | State.Uninitialized => 0
  | State.Disabled => 1
  | State.Enabled => 2
  | State.Sleeping => 3

/-- Embeds `impl From<Mode> for State`. -/
def State.fromMode : Mode → State
  | Mode.Disabled => State.Disabled
  | Mode.Enabled => State.Enabled
  | Mode.Sleeping => State.Sleeping

/-- Embeds the Rust struct `TryFromIntError`. -/
inductive TryFromIntError where
  | mk : TryFromIntError
deriving DecidableEq, Repr

/-- Embeds `impl TryFrom<u8> for State`. -/
def State.tryFrom (int : Nat) : Except TryFromIntError State :=
  match int with
  | 0 => Except.ok State.Uninitialized
  | 1 => Except.ok State.Disabled
  | 2 => Except.ok State.Enabled
  | 3 => Except.ok State.Sleeping
  | _ => Except.error TryFromIntError.mk

/-- Embeds the Rust struct `StateAtomic { state: AtomicU8 }`; the field is
the byte currently stored in the atomic. -/
structure StateAtomic where
  state : Nat
deriving DecidableEq, Repr

/-- Embeds `StateAtomic::new`: stores `state as u8`. -/
def StateAtomic.new (state : State) : StateAtomic := ⟨state.toU8⟩

/-- Embeds `StateAtomic::get`: decodes the stored byte (the Rust code then
unwraps the result; claim C8 shows the unwrap never fails on reachable
values). -/
def StateAtomic.get (a : StateAtomic) : Except TryFromIntError State :=
  State.tryFrom a.state

/-- Embeds `StateAtomic::set`: stores `state as u8` unconditionally. -/
def StateAtomic.set (_a : StateAtomic) (state : State) : StateAtomic := ⟨state.toU8⟩

/-- Embeds `StateAtomic::set_mode`: the `fetch_update` closure returns `None`
(no store, `res` is `Err`) exactly when the stored byte is the
`Uninitialized` discriminant; otherwise it stores the byte of the state
mapped from `mode` and the call returns that new state. -/
def StateAtomic.set_mode (a : StateAtomic) (mode : Mode) : StateAtomic × State :=
  let new_state := State.fromMode mode
  if a.state = State.Uninitialized.toU8 then
    (a, State.Uninitialized)
  else
    (⟨new_state.toU8⟩, new_state)

/-- A call in a sequence of operations on a `StateAtomic`. -/
inductive SAOp where
  | set (s : State) : SAOp
  | setMode (m : Mode) : SAOp
deriving DecidableEq, Repr

/-- Applies one call, keeping the updated atomic. -/
def applySA (a : StateAtomic) : SAOp → StateAtomic
  | SAOp.set s => a.set s
  | SAOp.setMode m => (a.set_mode m).1

/-- Runs a finite sequence of `set`/`set_mode` calls. -/
def runSA (a : StateAtomic) (ops : List SAOp) : StateAtomic :=
  ops.foldl applySA a

theorem toU8_le (s : State) : s.toU8 ≤ 3 := by
  cases s <;> decide

theorem runSA_le (a : StateAtomic) (h : a.state ≤ 3) (ops : List SAOp) :
    (runSA a ops).state ≤ 3 := by
  induction ops generalizing a with
  | nil => exact h
  | cons op ops ih =>
    refine ih (applySA a op) ?_
    cases op with
    | set s => exact toU8_le s
    | setMode m =>
      simp only [applySA, StateAtomic.set_mode]
      split
      · exact h
      · exact toU8_le (State.fromMode m)

/-- C2: `set_mode(m)` on a `StateAtomic` whose stored byte is the
`Uninitialized` discriminant returns `Uninitialized` and leaves the stored
state unchanged; on any other stored byte it stores the state mapped from
`m` and returns that new state. -/
theorem claim_C2 (a : StateAtomic) (m : Mode) :
    (a.state = State.Uninitialized.toU8 → a.set_mode m = (a, State.Uninitialized)) ∧
      (a.state ≠ State.Uninitialized.toU8 →
        a.set_mode m = (StateAtomic.mk (State.fromMode m).toU8, State.fromMode m)) := by
  constructor <;> intro h <;> simp [StateAtomic.set_mode, h]

/-- C2 witness: from the `Uninitialized` byte the call is blocked and the
state unchanged; after `set(Enabled)` a `set_mode(Sleeping)` succeeds. -/
theorem claim_C2_witness :
    (StateAtomic.new State.Uninitialized).set_mode Mode.Enabled =
        (StateAtomic.new State.Uninitialized, State.Uninitialized) ∧
      ((StateAtomic.new State.Uninitialized).set State.Enabled).set_mode Mode.Sleeping =
        (StateAtomic.mk 3, State.Sleeping) :=
  ⟨(claim_C2 (StateAtomic.new State.Uninitialized) Mode.Enabled).1 (by decide),
   (claim_C2 ((StateAtomic.new State.Uninitialized).set State.Enabled) Mode.Sleeping).2
     (by decide)⟩

/-- C8: along every sequence of `new`/`set`/`set_mode` calls with `State`
arguments, the stored byte stays in `{0, 1, 2, 3}`, so the decoding done by
`StateAtomic::get` never fails: it always returns a valid `State`. -/
theorem claim_C8 (s0 : State) (ops : List SAOp) :
    (runSA (StateAtomic.new s0) ops).state ≤ 3 ∧
      ∃ s : State, (runSA (StateAtomic.new s0) ops).get = Except.ok s := by
  have h3 : (runSA (StateAtomic.new s0) ops).state ≤ 3 :=
    runSA_le (StateAtomic.new s0) (toU8_le s0) ops
  refine ⟨h3, ?_⟩
  simp only [StateAtomic.get, State.tryFrom]
  interval_cases h : (runSA (StateAtomic.new s0) ops).state <;> exact ⟨_, rfl⟩

/-- Embeds the Rust enum `ReadingError` from `src/riot-rs-sensors/src/sensor.rs`. -/
inductive ReadingError where
  | NonEnabled : ReadingError
  | SensorAccess : ReadingError
deriving DecidableEq, Repr

/-- Modelled from the spec: the accuracy descriptor of a `PhysicalValue`
(`src/riot-rs-sensors/src/physical_value.rs` is not under `src/`); the spec
describes it as "unknown", "none", or a symmetrical deviation+bias+scale
triple of integers. -/
inductive Accuracy where
  | Unknown : Accuracy
  | NoError : Accuracy
  | Symmetrical (deviation bias scale : Int) : Accuracy
deriving DecidableEq, Repr

/-- Modelled from the spec: `PhysicalValue` is "an integer `value: i32` plus
an `error`/`accuracy` descriptor" (its defining file is not under `src/`). -/
structure PhysicalValue where
  value : Int
  error : Accuracy
deriving DecidableEq, Repr

/-- Modelled from the spec: `PhysicalValues` is generated by the
`define_count_adjusted_enums!` macro, which is not under `src/`; the spec
describes it as a closed tagged family `V1`/`V2`/… of fixed-size arrays of
`PhysicalValue`, arity 1 through a small N. Its internal shape is opaque to
the signaling claims below. -/
inductive PhysicalValues where
  | V1 (v1 : PhysicalValue) : PhysicalValues
  | V2 (v1 v2 : PhysicalValue) : PhysicalValues
  | V3 (v1 v2 v3 : PhysicalValue) : PhysicalValues
deriving DecidableEq, Repr

/-- Embeds the type alias `ReadingResult<R> = Result<R, ReadingError>`. -/
def ReadingResult (R : Type) : Type := Except ReadingError R

instance {ε α : Type} [DecidableEq ε] [DecidableEq α] : DecidableEq (Except ε α) := fun x y =>
  match x, y with
  | Except.ok a, Except.ok b =>
    if h : a = b then isTrue (congrArg Except.ok h)
    else isFalse (fun hc => by cases hc; exact h rfl)
  | Except.ok _, Except.error _ => isFalse (fun hc => Except.noConfusion hc)
  | Except.error _, Except.ok _ => isFalse (fun hc => Except.noConfusion hc)
  | Except.error e, Except.error f =>
    if h : e = f then isTrue (congrArg Except.error h)
    else isFalse (fun hc => by cases hc; exact h rfl)

/-- Embeds the Rust struct `SensorSignaling`: the one-shot `Signal` is a
"signaled" flag, and the capacity-1 `Channel` carrying
`ReadingResult<PhysicalValues>` is the optional message it currently holds
(at most one by its declared capacity). -/
structure SensorSignaling where
  trigger : Bool
  reading_channel : Option (Except ReadingError PhysicalValues)
deriving DecidableEq, Repr

/-- Embeds `SensorSignaling::new`: unsignaled `Signal`, empty `Channel`. -/
def SensorSignaling.new : SensorSignaling :=
  { trigger := false, reading_channel := none }

/-- Embeds `SensorSignaling::trigger_measurement`: first
`reading_channel.clear()` (drop any lingering reading), then
`trigger.signal(())`. -/
def SensorSignaling.trigger_measurement (s : SensorSignaling) : SensorSignaling :=
  { s with reading_channel := none, trigger := true }

/-- Embeds `SensorSignaling::signal_reading`: `reading_channel.send(Ok(r))`.
Sending on the capacity-1 channel completes only when the slot is free;
`none` models the producer staying suspended on a full slot. -/
def SensorSignaling.signal_reading (s : SensorSignaling) (reading : PhysicalValues) :
    Option SensorSignaling :=
  match s.reading_channel with
  | none => some { s with reading_channel := some (Except.ok reading) }
  | some _ => none

/-- Embeds `SensorSignaling::signal_reading_err`:
`reading_channel.send(Err(e))`, same completion condition. -/
def SensorSignaling.signal_reading_err (s : SensorSignaling) (e : ReadingError) :
    Option SensorSignaling :=
  match s.reading_channel with
  | none => some { s with reading_channel := some (Except.error e) }
  | some _ => none

/-- Embeds completion of the channel's `receive()` (what polling the
`ReadingWaiter::Waiter` arm resolves through): take the pending message out
of the slot, or `none` while the slot is empty (the receiver suspends). -/
def SensorSignaling.receive (s : SensorSignaling) :
    Option (Except ReadingError PhysicalValues × SensorSignaling) :=
  match s.reading_channel with
  | some v => some (v, { s with reading_channel := none })
  | none => none

/-- C3: `trigger_measurement()` always leaves the single-slot reading channel
empty before signaling the trigger, so after `signal_reading(A)`,
`trigger_measurement()`, `signal_reading(B)`, the pending slot holds exactly
`Ok(B)` and the next receive yields `Ok(B)` — never `Ok(A)` — and at no point
does more than one unconsumed result exist (the slot is a single `Option`). -/
theorem claim_C3 :
    (∀ s : SensorSignaling,
        (s.trigger_measurement).reading_channel = none ∧
          (s.trigger_measurement).trigger = true) ∧
      (∀ (s0 : SensorSignaling) (A B : PhysicalValues) (s1 : SensorSignaling),
        s0.signal_reading A = some s1 →
        ∃ s2 : SensorSignaling,
          (s1.trigger_measurement).signal_reading B = some s2 ∧
            s2.reading_channel = some (Except.ok B) ∧
            s2.receive = some (Except.ok B, { s2 with reading_channel := none })) := by
  constructor
  · intro s
    exact ⟨rfl, rfl⟩
  · intro s0 A B s1 h1
    refine ⟨{ trigger := true, reading_channel := some (Except.ok B) }, ?_, rfl, rfl⟩
    simp [SensorSignaling.signal_reading, SensorSignaling.trigger_measurement]

/-- C3 witness: the concrete run `signal_reading(A)`, `trigger_measurement()`,
`signal_reading(B)` from a fresh instance, with `A` the one-axis value 1 and
`B` the one-axis value 2; the slot ends holding `Ok(B)`. -/
theorem claim_C3_witness :
    ∃ s2 : SensorSignaling,
      ((SensorSignaling.new.trigger_measurement).signal_reading
          (PhysicalValues.V1 ⟨2, Accuracy.Unknown⟩)) = some s2 ∧
        s2.reading_channel = some (Except.ok (PhysicalValues.V1 ⟨2, Accuracy.Unknown⟩)) ∧
        s2.receive = some (Except.ok (PhysicalValues.V1 ⟨2, Accuracy.Unknown⟩),
          { s2 with reading_channel := none }) := by
  have h := claim_C3.2 SensorSignaling.new (PhysicalValues.V1 ⟨1, Accuracy.Unknown⟩)
    (PhysicalValues.V1 ⟨2, Accuracy.Unknown⟩)
    { trigger := false, reading_channel := some (Except.ok (PhysicalValues.V1 ⟨1, Accuracy.Unknown⟩)) }
    (by decide)
  exact h

/-- Embeds the Rust `Poll` enum from `core::task`. -/
inductive Poll (α : Type) where
  | Ready (a : α) : Poll α
  | Pending : Poll α
deriving DecidableEq, Repr

/-- Embeds the Rust enum `ReadingWaiter`. The `Waiter` arm holds a
`ReceiveFuture` borrowing the instance's channel, so the channel state is
passed to `poll` instead of stored here. -/
inductive ReadingWaiter where
  | Waiter : ReadingWaiter
  | Err (err : ReadingError) : ReadingWaiter
  | Resolved : ReadingWaiter
deriving DecidableEq, Repr

/-- Embeds `impl Future for ReadingWaiter::poll` as a step function on the
waiter together with the channel it borrows; the result is the new waiter,
the new channel state, and the `Poll` outcome. The `Resolved` arm hits
`unreachable!` in the source, embedded as `none`. -/
def ReadingWaiter.poll (w : ReadingWaiter) (chan : SensorSignaling) :
    Option (ReadingWaiter × SensorSignaling × Poll (Except ReadingError PhysicalValues)) :=
  match w with
  | ReadingWaiter.Waiter =>
    match chan.receive with
    | some (v, chan') => some (ReadingWaiter.Waiter, chan', Poll.Ready v)
    | none => some (ReadingWaiter.Waiter, chan, Poll.Pending)
  | ReadingWaiter.Err err =>
    some (ReadingWaiter.Resolved, chan, Poll.Ready (Except.error err))
  | ReadingWaiter.Resolved => none

/-- C9: polling a `ReadingWaiter` holding an immediate error `e` returns
`Poll::Ready(Err(e))` with exactly the stored error and replaces the waiter
in place with the terminal `Resolved` state; polling `Resolved` is the
`unreachable!` arm (no defined result). -/
theorem claim_C9 (e : ReadingError) (chan : SensorSignaling) :
    (ReadingWaiter.Err e).poll chan =
        some (ReadingWaiter.Resolved, chan, Poll.Ready (Except.error e)) ∧
      ReadingWaiter.Resolved.poll chan = none :=
  ⟨rfl, rfl⟩

end Sensors
